import Mathlib

/-!
Verification of `src/utils/dataset.py` (the data-loading core of diffusion-pipe).

The Python source is shallowly embedded below.  External collaborators
(the `random` stdlib module, the HuggingFace `datasets` map/caching machinery,
torch tensor stacking/splitting, the filesystem) are modelled at their
interfaces; everything that is the repository's own logic is translated
function by function from `src/utils/dataset.py`.

Modelling conventions:
* Python's global `random` generator is an explicit state threaded through
  the functions that touch it.  The generator itself (CPython's Mersenne
  Twister) is external library code, so it is kept abstract as a
  `RandomModule`: any deterministic state machine whose `randbelow` draws
  a number `< n`.  `random.shuffle`'s Fisher-Yates loop is translated from
  CPython (`for i in reversed(range(1, len(x))): j = _randbelow(i+1); swap`).
* A torch tensor is modelled by its leading (dim-0) axis: a `List T` whose
  length is the tensor's dim-0 size; `T` is the (opaque) content of one slice.
  A sample/example tuple `(latents, *text_embeddings)` is a `List` of such
  tensors.
* Fallible operations return `Option`/`Except`; logged warnings are returned
  as explicit values.
-/

namespace DatasetPy

/-- Model of the Python stdlib `random` module's deterministic generator:
an abstract state type, `seed` (= `random.seed`), and `randbelow`
(= `random._randbelow`, the only primitive `random.shuffle` consumes),
which must return a value `< n` for positive `n`. -/
structure RandomModule where
  State : Type
  seed : Nat → State
  randbelow : State → Nat → Nat × State
  randbelow_lt : ∀ s n, 0 < n → (randbelow s n).1 < n

/-- `x[i], x[j] = x[j], x[i]` on a list (CPython `random.shuffle`'s swap).
Indices produced by `shuffle` are always in range; out-of-range is identity. -/
def pySwap {α : Type} (l : List α) (i j : Nat) : List α :=
  match l[i]?, l[j]? with
  | some x, some y => (l.set i y).set j x
  | _, _ => l

/-- The Fisher-Yates loop of CPython `random.shuffle`:
`for i in reversed(range(1, len(x))): j = _randbelow(i + 1); swap x[i], x[j]`.
`pyShuffleAux R m l s` performs the iterations for `i = m, m-1, ..., 1`. -/
def pyShuffleAux (R : RandomModule) {α : Type} : Nat → List α → R.State → List α × R.State
  | 0, l, s => (l, s)
  | i + 1, l, s =>
      let js := R.randbelow s (i + 2)
      pyShuffleAux R i (pySwap l (i + 1) js.1) js.2

/-- `random.shuffle(l)` starting from generator state `s`. -/
def pyShuffle (R : RandomModule) {α : Type} (l : List α) (s : R.State) : List α × R.State :=
  pyShuffleAux R (l.length - 1) l s

/-- The value produced by shuffling `l` after `random.seed(seed)`:
the (state-free) permutation a fixed seed determines. -/
def shuffled (R : RandomModule) {α : Type} (l : List α) (seed : Nat) : List α :=
  (pyShuffle R l (R.seed seed)).1

/-- `shuffle_with_seed(l, seed)` (dataset.py lines 20-24), acting on the
ambient generator state `s`:
`rng_state = random.getstate(); random.seed(seed); random.shuffle(l);
random.setstate(rng_state)`.  Returns the shuffled list and the generator
state after the call. -/
def shuffle_with_seed (R : RandomModule) {α : Type} (l : List α) (seed : Nat)
    (s : R.State) : List α × R.State :=
  let rng_state := s
  let res := pyShuffle R l (R.seed seed)
  (res.1, rng_state)

/-- A concrete executable instance of `RandomModule` (used to evaluate the
model at concrete inputs): state is a `Nat`, `randbelow s n = s % n`. -/
def lcgRandom : RandomModule where
  State := Nat
  seed n := n
  randbelow s n := (s % n, s / 2 + 1)
  randbelow_lt := by
    intro s n h
    simpa using Nat.mod_lt _ h

theorem length_pySwap {α : Type} (l : List α) (i j : Nat) :
    (pySwap l i j).length = l.length := by
  unfold pySwap
  cases hi : l[i]? with
  | none => simp
  | some x => cases hj : l[j]? with
    | none => simp
    | some y => simp

theorem length_pyShuffleAux (R : RandomModule) {α : Type} (m : Nat) (l : List α)
    (s : R.State) : (pyShuffleAux R m l s).1.length = l.length := by
  induction m generalizing l s with
  | zero => rfl
  | succ i ih => rw [pyShuffleAux, ih, length_pySwap]

theorem length_shuffled (R : RandomModule) {α : Type} (l : List α) (seed : Nat) :
    (shuffled R l seed).length = l.length := by
  unfold shuffled pyShuffle
  exact length_pyShuffleAux R _ l _

/-- Setting index `i` exchanges one occurrence of `l[i]` for one of `y`
(stated additively to stay in `Nat`). -/
theorem count_set_add {α : Type} [DecidableEq α] (l : List α) (i : Nat) (y c : α)
    (h : i < l.length) :
    (l.set i y).count c + (if l.get ⟨i, h⟩ = c then 1 else 0)
      = l.count c + (if y = c then 1 else 0) := by
  induction l generalizing i with
  | nil => simp at h
  | cons a t ih =>
    cases i with
    | zero =>
      simp only [List.set, List.get, List.count_cons, beq_iff_eq]
      split <;> split <;> omega
    | succ n =>
      simp only [List.set, List.get, List.count_cons, beq_iff_eq]
      have hn : n < t.length := by simpa using h
      have := ih n hn
      split <;> omega

theorem pySwap_eq {α : Type} {l : List α} {i j : Nat} {x y : α}
    (hi : l[i]? = some x) (hj : l[j]? = some y) :
    pySwap l i j = (l.set i y).set j x := by
  unfold pySwap
  rw [hi, hj]

theorem count_pySwap {α : Type} [DecidableEq α] (l : List α) (i j : Nat) (c : α) :
    (pySwap l i j).count c = l.count c := by
  cases hi : l[i]? with
  | none => unfold pySwap; rw [hi]
  | some x =>
    cases hj : l[j]? with
    | none => unfold pySwap; rw [hi, hj]
    | some y =>
      rw [pySwap_eq hi hj]
      have hil : i < l.length := by
        cases Nat.lt_or_ge i l.length with
        | inl h => exact h
        | inr h => rw [List.getElem?_eq_none h] at hi; cases hi
      have hjl : j < l.length := by
        cases Nat.lt_or_ge j l.length with
        | inl h => exact h
        | inr h => rw [List.getElem?_eq_none h] at hj; cases hj
      have hx : l.get ⟨i, hil⟩ = x := by
        have := List.getElem?_eq_getElem hil
        rw [hi] at this
        simpa [List.get_eq_getElem] using this.symm
      have hy : l.get ⟨j, hjl⟩ = y := by
        have := List.getElem?_eq_getElem hjl
        rw [hj] at this
        simpa [List.get_eq_getElem] using this.symm
      have hjl' : j < (l.set i y).length := by simpa using hjl
      have c1 := count_set_add (l.set i y) j x c hjl'
      have c2 := count_set_add l i y c hil
      have hgy : (l.set i y).get ⟨j, hjl'⟩ = y := by
        by_cases hij : i = j
        · subst hij
          simp [List.get_eq_getElem]
        · simp [List.get_eq_getElem, List.getElem_set_ne hij, ← hy, List.get_eq_getElem]
      rw [hgy] at c1
      rw [hx] at c2
      -- c1 : swap.count c + [y = c] = (l.set i y).count c + [x = c]
      -- c2 : (l.set i y).count c + [x = c] = l.count c + [y = c]
      omega

theorem count_pyShuffleAux (R : RandomModule) {α : Type} [DecidableEq α] (m : Nat)
    (l : List α) (s : R.State) (c : α) :
    (pyShuffleAux R m l s).1.count c = l.count c := by
  induction m generalizing l s with
  | zero => rfl
  | succ i ih => rw [pyShuffleAux, ih, count_pySwap]

theorem count_shuffled (R : RandomModule) {α : Type} [DecidableEq α] (l : List α)
    (seed : Nat) (c : α) : (shuffled R l seed).count c = l.count c := by
  unfold shuffled pyShuffle
  exact count_pyShuffleAux R _ l _ c

theorem mem_shuffled_lt (R : RandomModule) (l : List Nat) (seed : Nat) (j : Nat)
    (h : j ∈ shuffled R l seed) : j ∈ l := by
  have : 0 < (shuffled R l seed).count j := List.count_pos_iff.mpr h
  rw [count_shuffled] at this
  exact List.count_pos_iff.mp this

/-- C8: `shuffle_with_seed` restores the ambient generator state: for every
list, seed and prior state, the state after the call equals the state before,
and the permutation applied depends only on the list and the seed (the result
is the same whatever the ambient state was). -/
theorem C8_shuffle_with_seed_state_restored (R : RandomModule) {α : Type}
    (l : List α) (seed : Nat) (s : R.State) :
    (shuffle_with_seed R l seed s).2 = s ∧
      ∀ s' : R.State,
        (shuffle_with_seed R l seed s).1 = (shuffle_with_seed R l seed s').1 ∧
          (shuffle_with_seed R l seed s).1 = shuffled R l seed := by
  exact ⟨rfl, fun _ => ⟨rfl, rfl⟩⟩

end DatasetPy

namespace DatasetPy

/-- The `iteration_order.extend([i] * f(len_i))` loop shared by
`ConcatenatedDataset.__init__` (line 173, `f = id`) and
`Dataset._make_divisible_by` (line 238, `f = (· / n)`):
`extendOrderAux f i lens` emits index `i` `f lens[0]` times, then `i+1`
`f lens[1]` times, and so on. -/
def extendOrderAux (f : Nat → Nat) : Nat → List Nat → List Nat
  | _, [] => []
  | i, len :: rest => List.replicate (f len) i ++ extendOrderAux f (i + 1) rest

theorem count_extendOrderAux (f : Nat → Nat) (j : Nat) (ls : List Nat) :
    ∀ i, (extendOrderAux f i ls).count j =
      if i ≤ j ∧ j < i + ls.length then f (ls.getD (j - i) 0) else 0 := by
  induction ls with
  | nil =>
    intro i
    simp only [extendOrderAux, List.count_nil, List.length_nil, Nat.add_zero]
    rw [if_neg (by omega)]
  | cons len rest ih =>
    intro i
    rw [extendOrderAux, List.count_append, List.count_replicate, ih (i + 1)]
    by_cases hji : i = j
    · subst hji
      rw [if_pos (by simp)]
      rw [if_neg (by omega)]
      rw [if_pos (by simp only [List.length_cons]; omega)]
      simp
    · rw [if_neg (by simpa using hji)]
      by_cases hc : i + 1 ≤ j ∧ j < i + 1 + rest.length
      · rw [if_pos hc]
        rw [if_pos (by simp only [List.length_cons]; omega)]
        have h4 : j - i = (j - (i + 1)) + 1 := by omega
        rw [h4]
        simp
      · rw [if_neg hc]
        rw [if_neg (by simp only [List.length_cons]; omega)]

/-- A `ConcatenatedDataset` (lines 168-189): the member `SizeBucketDataset`s,
each modelled by its sample sequence, plus the interleaving `iteration_order`. -/
structure ConcatenatedDataset (α : Type) where
  datasets : List (List α)
  iteration_order : List Nat

/-- `ConcatenatedDataset.__init__` (lines 169-175): emit each dataset's index
`len(ds)` times, then `shuffle_with_seed(iteration_order, 0)`. -/
def ConcatenatedDataset.init (R : RandomModule) {α : Type} (datasets : List (List α)) :
    ConcatenatedDataset α :=
  let iteration_order := extendOrderAux (fun len => len) 0 (datasets.map List.length)
  { datasets := datasets, iteration_order := shuffled R iteration_order 0 }

/-- `ConcatenatedDataset.__len__` (lines 177-178). -/
def ConcatenatedDataset.len {α : Type} (c : ConcatenatedDataset α) : Nat :=
  c.iteration_order.length

/-- `ConcatenatedDataset.__iter__` (lines 180-183): for each `i` in the
iteration order, yield `next(iterators[i])`.  `none` models an `IndexError`
or `StopIteration` escaping (which the Python code never handles). -/
def interleave {α : Type} : List Nat → List (List α) → Option (List α)
  | [], _ => some []
  | i :: rest, streams =>
      match streams[i]? with
      | none => none
      | some [] => none
      | some (x :: xs) => (interleave rest (streams.set i xs)).map (x :: ·)

def ConcatenatedDataset.iter {α : Type} (c : ConcatenatedDataset α) : Option (List α) :=
  interleave c.iteration_order c.datasets

/-- `ConcatenatedDataset._make_divisible_by` (lines 185-189):
`new_length = (len(self) // n) * n; iteration_order = iteration_order[:new_length]`,
warning (second component) logged when `new_length == 0 and is_main_process()`. -/
def ConcatenatedDataset.make_divisible_by {α : Type} (c : ConcatenatedDataset α)
    (n : Nat) (is_main : Bool) : ConcatenatedDataset α × Bool :=
  let new_length := (c.len / n) * n
  ({ c with iteration_order := c.iteration_order.take new_length },
   (new_length == 0) && is_main)

/-- Well-formedness of a `ConcatenatedDataset`: every index in the iteration
order addresses an existing member dataset, and no index occurs more often
than its dataset has samples.  `__init__` establishes this and trimming
preserves it. -/
def ConcatenatedDataset.WF {α : Type} (c : ConcatenatedDataset α) : Prop :=
  (∀ j ∈ c.iteration_order, j < c.datasets.length) ∧
  ∀ j, j < c.datasets.length →
    c.iteration_order.count j ≤ (c.datasets.getD j []).length

instance {α : Type} (c : ConcatenatedDataset α) : Decidable c.WF := by
  unfold ConcatenatedDataset.WF
  infer_instance

theorem count_init_order (R : RandomModule) {α : Type} (datasets : List (List α))
    (j : Nat) :
    (ConcatenatedDataset.init R datasets).iteration_order.count j =
      if j < datasets.length then (datasets.getD j []).length else 0 := by
  show (shuffled R _ 0).count j = _
  rw [count_shuffled, count_extendOrderAux]
  by_cases hj : j < datasets.length
  · rw [if_pos (by simpa using hj), if_pos hj]
    simp [List.getD_eq_getElem?_getD, List.getElem?_eq_getElem, hj]
  · rw [if_neg (by simpa using hj), if_neg hj]

theorem WF_init (R : RandomModule) {α : Type} (datasets : List (List α)) :
    (ConcatenatedDataset.init R datasets).WF := by
  constructor
  · intro j hj
    have h0 : 0 < (ConcatenatedDataset.init R datasets).iteration_order.count j :=
      List.count_pos_iff.mpr hj
    rw [count_init_order] at h0
    by_cases hlt : j < datasets.length
    · simpa [ConcatenatedDataset.init] using hlt
    · rw [if_neg hlt] at h0; omega
  · intro j hj
    rw [count_init_order, if_pos (by simpa [ConcatenatedDataset.init] using hj)]
    simp [ConcatenatedDataset.init]

theorem len_make_divisible_by {α : Type} (c : ConcatenatedDataset α) (n : Nat)
    (is_main : Bool) :
    (c.make_divisible_by n is_main).1.len = (c.len / n) * n := by
  show (c.iteration_order.take _).length = _
  rw [List.length_take]
  exact Nat.min_eq_left (Nat.div_mul_le_self _ _)

theorem WF_make_divisible_by {α : Type} {c : ConcatenatedDataset α} (h : c.WF)
    (n : Nat) (is_main : Bool) : (c.make_divisible_by n is_main).1.WF := by
  obtain ⟨h1, h2⟩ := h
  constructor
  · intro j hj
    exact h1 j ((List.take_sublist _ _).mem hj)
  · intro j hj
    exact le_trans ((List.take_sublist _ _).count_le j) (h2 j hj)

theorem interleave_cons_eq {α : Type} {streams : List (List α)} {i : Nat} {x : α}
    {xs : List α} (h : streams[i]? = some (x :: xs)) (rest : List Nat) :
    interleave (i :: rest) streams = (interleave rest (streams.set i xs)).map (x :: ·) := by
  conv_lhs => rw [interleave]
  rw [h]

theorem interleave_eq_some {α : Type} :
    ∀ (order : List Nat) (streams : List (List α)),
      (∀ j ∈ order, j < streams.length) →
      (∀ j, j < streams.length → order.count j ≤ (streams.getD j []).length) →
      ∃ out, interleave order streams = some out ∧ out.length = order.length := by
  intro order
  induction order with
  | nil => exact fun streams _ _ => ⟨[], rfl, rfl⟩
  | cons i rest ih =>
    intro streams hb hc
    have hi : i < streams.length := hb i (List.mem_cons_self i rest)
    have hcnt := hc i hi
    have hpos : 0 < (streams.getD i []).length := by
      have : 0 < (i :: rest).count i := by simp
      omega
    have hgd : streams.getD i [] = streams[i] := by
      simp [List.getD_eq_getElem?_getD, List.getElem?_eq_getElem, hi]
    obtain ⟨x, xs, hxs⟩ : ∃ x xs, streams[i] = x :: xs := by
      rcases hval : streams[i] with _ | ⟨x, xs⟩
      · rw [hgd, hval] at hpos; simp at hpos
      · exact ⟨x, xs, rfl⟩
    have hb' : ∀ j ∈ rest, j < (streams.set i xs).length := by
      intro j hj
      rw [List.length_set]
      exact hb j (List.mem_cons_of_mem _ hj)
    have hc' : ∀ j, j < (streams.set i xs).length →
        rest.count j ≤ ((streams.set i xs).getD j []).length := by
      intro j hj
      rw [List.length_set] at hj
      by_cases hij : j = i
      · subst hij
        have hset : (streams.set j xs).getD j [] = xs := by
          simp [List.getD_eq_getElem?_getD, List.getElem?_set_self hj]
        rw [hset]
        have hcc : (j :: rest).count j = rest.count j + 1 := by simp
        have hlen : (streams.getD j []).length = xs.length + 1 := by
          rw [hgd, hxs]; simp
        omega
      · have hij' : i ≠ j := Ne.symm hij
        have hset : (streams.set i xs).getD j [] = streams.getD j [] := by
          simp [List.getD_eq_getElem?_getD, List.getElem?_set_ne hij']
        rw [hset]
        have hcc : (i :: rest).count j = rest.count j := by
          rw [List.count_cons]
          simp [hij']
        have := hc j hj
        omega
    obtain ⟨out, hout, hlen⟩ := ih (streams.set i xs) hb' hc'
    refine ⟨x :: out, ?_, by simpa using hlen⟩
    rw [interleave_cons_eq (by rw [List.getElem?_eq_getElem hi, hxs]) rest, hout]
    rfl


/-- C5: for every `ConcatenatedDataset` and every `n ≥ 1`,
`_make_divisible_by(n)` truncates the interleave index to its largest prefix
whose length is a multiple of `n`; when the resulting length is 0 the bucket
is effectively dropped (empty order) and, on the main process, a warning is
logged; no error is raised (the function is total and the member datasets are
untouched). -/
theorem C5_concat_make_divisible_by (α : Type) (c : ConcatenatedDataset α) (n : Nat)
    (hn : 1 ≤ n) (is_main : Bool) :
    (c.make_divisible_by n is_main).1.iteration_order
        = c.iteration_order.take ((c.len / n) * n) ∧
    (c.make_divisible_by n is_main).1.len = (c.len / n) * n ∧
    n ∣ (c.make_divisible_by n is_main).1.len ∧
    (∀ m, m ≤ c.len → n ∣ m → m ≤ (c.make_divisible_by n is_main).1.len) ∧
    ((c.make_divisible_by n is_main).1.len = 0 →
        (c.make_divisible_by n is_main).1.iteration_order = []) ∧
    ((c.make_divisible_by n is_main).2 = true ↔
        ((c.make_divisible_by n is_main).1.len = 0 ∧ is_main = true)) ∧
    (c.make_divisible_by n is_main).1.datasets = c.datasets := by
  have hlen := len_make_divisible_by c n is_main
  refine ⟨rfl, hlen, ?_, ?_, ?_, ?_, rfl⟩
  · rw [hlen]
    exact ⟨c.len / n, Nat.mul_comm _ _⟩
  · intro m hm hd
    rw [hlen]
    obtain ⟨k, hk⟩ := hd
    subst hk
    have hk' : k ≤ c.len / n :=
      (Nat.le_div_iff_mul_le hn).mpr (by rw [Nat.mul_comm]; exact hm)
    calc n * k ≤ (c.len / n) * n := by
          rw [Nat.mul_comm]
          exact Nat.mul_le_mul_right n hk'
      _ = (c.len / n) * n := rfl
  · intro h0
    exact List.length_eq_zero.mp h0
  · have h2 : (c.make_divisible_by n is_main).2
        = (((c.len / n) * n == 0) && is_main) := rfl
    rw [h2, hlen]
    simp [Bool.and_eq_true, beq_iff_eq]

/-- C5 witness: a 7-element bucket trimmed with n = 3 keeps 6 elements. -/
theorem C5_concat_make_divisible_by_witness :
    1 ≤ 3 ∧
    (ConcatenatedDataset.make_divisible_by
        (⟨[[10, 11, 12, 13, 14, 15, 16]], [0, 0, 0, 0, 0, 0, 0]⟩ : ConcatenatedDataset Nat)
        3 true).1.len = 6 :=
  ⟨by decide,
   (C5_concat_make_divisible_by Nat
      (⟨[[10, 11, 12, 13, 14, 15, 16]], [0, 0, 0, 0, 0, 0, 0]⟩ : ConcatenatedDataset Nat)
      3 (by decide) true).2.1⟩

/-- The pulls of `Dataset.__iter__` (lines 248-253): for each selected bucket
index `i`, `examples = [next(iterator) for _ in range(n)]` pulls `n`
consecutive samples from bucket `i`'s stream.  `none` models an uncaught
`IndexError`/`StopIteration`. -/
def iterPulls {α : Type} (n : Nat) : List Nat → List (List α) → Option (List (List α))
  | [], _ => some []
  | i :: rest, streams =>
      match streams[i]? with
      | none => none
      | some st =>
          if n ≤ st.length then
            (iterPulls n rest (streams.set i (st.drop n))).map (st.take n :: ·)
          else none

theorem iterPulls_cons_eq {α : Type} {streams : List (List α)} {i n : Nat}
    {st : List α} (h : streams[i]? = some st) (hlen : n ≤ st.length)
    (rest : List Nat) :
    iterPulls n (i :: rest) streams
      = (iterPulls n rest (streams.set i (st.drop n))).map (st.take n :: ·) := by
  conv_lhs => rw [iterPulls]
  rw [h]
  show (if n ≤ st.length then
      (iterPulls n rest (streams.set i (st.drop n))).map (st.take n :: ·)
    else none) = _
  rw [if_pos hlen]

theorem iterPulls_eq_some {α : Type} (n : Nat) :
    ∀ (order : List Nat) (streams : List (List α)),
      (∀ j ∈ order, j < streams.length) →
      (∀ j, j < streams.length → n * order.count j ≤ (streams.getD j []).length) →
      ∃ out, iterPulls n order streams = some out ∧ out.length = order.length ∧
        ∀ p ∈ out, p.length = n := by
  intro order
  induction order with
  | nil => exact fun streams _ _ => ⟨[], rfl, rfl, by intro p hp; cases hp⟩
  | cons i rest ih =>
    intro streams hb hc
    have hi : i < streams.length := hb i (List.mem_cons_self i rest)
    have hgd : streams.getD i [] = streams[i] := by
      simp [List.getD_eq_getElem?_getD, List.getElem?_eq_getElem, hi]
    have hcnt := hc i hi
    have hccself : (i :: rest).count i = rest.count i + 1 := by simp
    have hnle : n ≤ streams[i].length := by
      rw [← hgd]
      calc n = n * 1 := by omega
        _ ≤ n * (i :: rest).count i := Nat.mul_le_mul_left n (by omega)
        _ ≤ (streams.getD i []).length := hcnt
    have hb' : ∀ j ∈ rest, j < (streams.set i (streams[i].drop n)).length := by
      intro j hj
      rw [List.length_set]
      exact hb j (List.mem_cons_of_mem _ hj)
    have hc' : ∀ j, j < (streams.set i (streams[i].drop n)).length →
        n * rest.count j ≤ ((streams.set i (streams[i].drop n)).getD j []).length := by
      intro j hj
      rw [List.length_set] at hj
      by_cases hij : j = i
      · subst hij
        have hset : (streams.set j (streams[j].drop n)).getD j [] = streams[j].drop n := by
          simp [List.getD_eq_getElem?_getD, List.getElem?_set_self hj]
        rw [hset, List.length_drop]
        have := hc j hj
        rw [hgd] at this
        rw [hccself] at this
        -- n * (rest.count j + 1) ≤ streams[j].length
        have hexp : n * (rest.count j + 1) = n * rest.count j + n := by ring
        omega
      · have hij' : i ≠ j := Ne.symm hij
        have hset : (streams.set i (streams[i].drop n)).getD j [] = streams.getD j [] := by
          simp [List.getD_eq_getElem?_getD, List.getElem?_set_ne hij']
        rw [hset]
        have hcc : (i :: rest).count j = rest.count j := by
          rw [List.count_cons]
          simp [hij']
        have hle := hc j hj
        rw [hcc] at hle
        exact hle
    obtain ⟨out, hout, hlen, hall⟩ := ih (streams.set i (streams[i].drop n)) hb' hc'
    refine ⟨streams[i].take n :: out, ?_, by simpa using hlen, ?_⟩
    · rw [iterPulls_cons_eq (List.getElem?_eq_getElem hi) hnle rest, hout]
      rfl
    · intro p hp
      rcases List.mem_cons.mp hp with hp | hp
      · subst hp
        rw [List.length_take]
        exact Nat.min_eq_left hnle
      · exact hall p hp


/-- The number of columns `zip(*examples)` produces: the minimum tuple arity
(`zip` stops at the shortest argument; `zip()` of no arguments is empty). -/
def minLen {T : Type} : List (List T) → Nat
  | [] => 0
  | [l] => l.length
  | l :: ls => min l.length (minLen ls)

/-- `Dataset._collate` (262-263):
`tuple(torch.stack(tensors, dim=0) for tensors in zip(*examples))`.
With a tensor opaque (`T`), the stacked column `j` is the list of every
example's `j`-th tensor, whose length is that stacked tensor's dim-0 size. -/
def pyZipStar {T : Type} [Inhabited T] (examples : List (List T)) : List (List T) :=
  (List.range (minLen examples)).map fun j => examples.map fun ex => ex.getD j default

theorem length_of_mem_pyZipStar {T : Type} [Inhabited T] {examples : List (List T)}
    {x : List T} (h : x ∈ pyZipStar examples) : x.length = examples.length := by
  obtain ⟨j, _, hx⟩ := List.mem_map.mp h
  rw [← hx, List.length_map]

/-- The top-level `Dataset` (lines 192-263).  `buckets` is built in
`__init__`; the remaining fields are set by `post_init`. -/
structure Dataset (α : Type) where
  buckets : List (ConcatenatedDataset α)
  data_parallel_rank : Nat := 0
  data_parallel_world_size : Nat := 0
  batch_size : Nat := 0
  global_batch_size : Nat := 0
  iteration_order : List Nat := []
  post_init_called : Bool := false

/-- `Dataset.__len__` (244-246). -/
def Dataset.len {α : Type} (d : Dataset α) : Nat := d.iteration_order.length

/-- `Dataset._make_divisible_by` (233-242): trim every bucket, then rebuild
the bucket-selection order — `iteration_order.extend([i] * (len(bucket) // n))`
per bucket, then `shuffle_with_seed(iteration_order, 0)`.  Second component:
whether any bucket logged the dropped-bucket warning. -/
def Dataset.make_divisible_by (R : RandomModule) {α : Type} (d : Dataset α) (n : Nat)
    (is_main : Bool) : Dataset α × Bool :=
  let tb := d.buckets.map fun c => c.make_divisible_by n is_main
  let buckets := tb.map Prod.fst
  let warned := tb.any Prod.snd
  let iteration_order :=
    extendOrderAux (fun len => len / n) 0 (buckets.map ConcatenatedDataset.len)
  ({ d with buckets := buckets, iteration_order := shuffled R iteration_order 0 },
   warned)

/-- `Dataset.post_init` (225-231):
`batch_size = per_device_batch_size * gradient_accumulation_steps`,
`global_batch_size = data_parallel_world_size * batch_size`, then
`_make_divisible_by(global_batch_size)`. -/
def Dataset.post_init (R : RandomModule) {α : Type} (d : Dataset α)
    (data_parallel_rank data_parallel_world_size per_device_batch_size
      gradient_accumulation_steps : Nat) (is_main : Bool) : Dataset α × Bool :=
  let batch_size := per_device_batch_size * gradient_accumulation_steps
  let global_batch_size := data_parallel_world_size * batch_size
  let p := Dataset.make_divisible_by R
    { d with data_parallel_rank := data_parallel_rank,
             data_parallel_world_size := data_parallel_world_size,
             batch_size := batch_size,
             global_batch_size := global_batch_size }
    global_batch_size is_main
  ({ p.1 with post_init_called := true }, p.2)

/-- First stage of `Dataset.__iter__` (248-253): materialize every bucket's
iterator, then for each entry of the bucket-selection order pull
`global_batch_size` consecutive examples from the selected bucket. -/
def Dataset.iter_pulls {α : Type} (d : Dataset α) : Option (List (List α)) := do
  let streams ← d.buckets.mapM ConcatenatedDataset.iter
  iterPulls d.global_batch_size d.iteration_order streams

/-- `Dataset.__iter__` (248-260): every pull is collated (`_collate`) and
sliced with `selector = slice(rank * batch_size, rank * batch_size + batch_size)`;
the yielded value is the rank-local tensor tuple handed to
`model.prepare_inputs` (an external hook). -/
def Dataset.iter {T : Type} [Inhabited T] (d : Dataset (List T)) :
    Option (List (List (List T))) :=
  (d.iter_pulls).map fun pulls =>
    pulls.map fun examples =>
      let batch := pyZipStar examples
      let start_idx := d.data_parallel_rank * d.batch_size
      batch.map fun x => (x.drop start_idx).take d.batch_size

theorem mapM_iter_eq_some {α : Type} :
    ∀ buckets : List (ConcatenatedDataset α),
      (∀ c ∈ buckets, c.WF) →
      ∃ streams, buckets.mapM ConcatenatedDataset.iter = some streams ∧
        streams.length = buckets.length ∧
        ∀ k, k < buckets.length →
          (streams.getD k []).length = (buckets.getD k ⟨[], []⟩).len := by
  intro buckets
  induction buckets with
  | nil =>
    intro _
    exact ⟨[], rfl, rfl, by intro k hk; cases hk⟩
  | cons c cs ih =>
    intro hwf
    have hcwf := hwf c (List.mem_cons_self c cs)
    obtain ⟨seq, hseq, hslen⟩ :=
      interleave_eq_some c.iteration_order c.datasets hcwf.1 hcwf.2
    obtain ⟨streams, hs, hl, hgd⟩ := ih (fun x hx => hwf x (List.mem_cons_of_mem _ hx))
    refine ⟨seq :: streams, ?_, by simp [hl], ?_⟩
    · rw [List.mapM_cons]
      have hcit : c.iter = some seq := hseq
      rw [hcit, hs]
      rfl
    · intro k hk
      cases k with
      | zero => simpa [ConcatenatedDataset.len] using hslen
      | succ k' =>
        have hk' : k' < cs.length := by simpa using hk
        simpa using hgd k' hk'


/-- The bucket-selection order `Dataset._make_divisible_by` builds before the
seed-0 shuffle (lines 236-238): bucket `i` appears `len(bucket_i) // n` times. -/
def rawSelectionOrder {α : Type} (buckets : List (ConcatenatedDataset α)) (n : Nat) :
    List Nat :=
  extendOrderAux (fun len => len / n) 0 (buckets.map ConcatenatedDataset.len)

theorem make_divisible_by_buckets (R : RandomModule) {α : Type} (d : Dataset α)
    (n : Nat) (is_main : Bool) :
    (Dataset.make_divisible_by R d n is_main).1.buckets
      = d.buckets.map (fun c => (c.make_divisible_by n is_main).1) := by
  show (d.buckets.map _).map Prod.fst = _
  rw [List.map_map]
  rfl

theorem make_divisible_by_order (R : RandomModule) {α : Type} (d : Dataset α)
    (n : Nat) (is_main : Bool) :
    (Dataset.make_divisible_by R d n is_main).1.iteration_order
      = shuffled R
          (rawSelectionOrder (Dataset.make_divisible_by R d n is_main).1.buckets n)
          0 :=
  rfl

theorem getD_map_lt {β γ : Type} (f : β → γ) (l : List β) (j : Nat)
    (hj : j < l.length) (d1 : β) (d2 : γ) :
    (l.map f).getD j d2 = f (l.getD j d1) := by
  rw [List.getD_eq_getElem?_getD, List.getElem?_map, List.getElem?_eq_getElem hj,
    List.getD_eq_getElem?_getD, List.getElem?_eq_getElem hj]
  rfl

theorem count_rawSelectionOrder {α : Type} (buckets : List (ConcatenatedDataset α))
    (n j : Nat) :
    (rawSelectionOrder buckets n).count j
      = if j < buckets.length then (buckets.getD j ⟨[], []⟩).len / n else 0 := by
  unfold rawSelectionOrder
  rw [count_extendOrderAux]
  by_cases hj : j < buckets.length
  · rw [if_pos (by simpa using hj), if_pos hj]
    simp only [Nat.sub_zero]
    rw [getD_map_lt ConcatenatedDataset.len buckets j hj ⟨[], []⟩ 0]
  · rw [if_neg (by simpa using hj), if_neg hj]

/-- C4: after `post_init(rank, world_size, b, g)` on a dataset whose buckets
are well-formed: `global_batch_size = world_size * b * g` and the rank-local
`batch_size = b * g`; the bucket-selection order is the seed-0 shuffle of a
raw order in which bucket `i` appears exactly `len(bucket_i) // global_batch_size`
times; iteration is fully defined, yielding one batch per selection entry,
each batch pulling exactly `global_batch_size` consecutive samples from the
selected bucket; and the rank-local slice starts at `rank * (b*g)`, every
yielded tensor having leading dimension exactly `b * g`. -/
theorem C4_post_init_iteration (T : Type) [Inhabited T] (R : RandomModule)
    (d0 : Dataset (List T)) (rank world b g : Nat) (is_main : Bool)
    (hwf : ∀ c ∈ d0.buckets, c.WF)
    (hrank : rank < world) (hbg : 0 < b * g) :
    (Dataset.post_init R d0 rank world b g is_main).1.global_batch_size
        = world * (b * g) ∧
    (Dataset.post_init R d0 rank world b g is_main).1.batch_size = b * g ∧
    (Dataset.post_init R d0 rank world b g is_main).1.iteration_order
        = shuffled R
            (rawSelectionOrder (Dataset.post_init R d0 rank world b g is_main).1.buckets
              (world * (b * g))) 0 ∧
    (∀ j, j < d0.buckets.length →
      (rawSelectionOrder (Dataset.post_init R d0 rank world b g is_main).1.buckets
          (world * (b * g))).count j
        = (d0.buckets.getD j ⟨[], []⟩).len / (world * (b * g))) ∧
    (∃ pulls, (Dataset.post_init R d0 rank world b g is_main).1.iter_pulls = some pulls ∧
      pulls.length = (Dataset.post_init R d0 rank world b g is_main).1.len ∧
      (∀ p ∈ pulls, p.length = world * (b * g)) ∧
      (Dataset.post_init R d0 rank world b g is_main).1.iter
        = some (pulls.map fun examples =>
            (pyZipStar examples).map fun x => (x.drop (rank * (b * g))).take (b * g)) ∧
      ∀ batch ∈ pulls.map (fun examples =>
            (pyZipStar examples).map fun x => (x.drop (rank * (b * g))).take (b * g)),
        ∀ col ∈ batch, col.length = b * g) := by
  have hworld : 0 < world := lt_of_le_of_lt (Nat.zero_le rank) hrank
  have hnpos : 0 < world * (b * g) := Nat.mul_pos hworld hbg
  have hB : (Dataset.post_init R d0 rank world b g is_main).1.buckets
      = d0.buckets.map (fun c => (c.make_divisible_by (world * (b * g)) is_main).1) := by
    show ((d0.buckets.map _).map Prod.fst) = _
    rw [List.map_map]
    rfl
  have hord : (Dataset.post_init R d0 rank world b g is_main).1.iteration_order
      = shuffled R
          (rawSelectionOrder (Dataset.post_init R d0 rank world b g is_main).1.buckets
            (world * (b * g))) 0 := rfl
  have hcount : ∀ j, j < d0.buckets.length →
      (rawSelectionOrder (Dataset.post_init R d0 rank world b g is_main).1.buckets
          (world * (b * g))).count j
        = (d0.buckets.getD j ⟨[], []⟩).len / (world * (b * g)) := by
    intro j hj
    rw [hB, count_rawSelectionOrder, if_pos (by simpa using hj)]
    rw [getD_map_lt (fun c => (c.make_divisible_by (world * (b * g)) is_main).1)
      d0.buckets j hj ⟨[], []⟩ ⟨[], []⟩]
    rw [len_make_divisible_by]
    rw [Nat.mul_div_cancel _ hnpos]
  have hBlen : (Dataset.post_init R d0 rank world b g is_main).1.buckets.length
      = d0.buckets.length := by rw [hB, List.length_map]
  have hwf' : ∀ c' ∈ (Dataset.post_init R d0 rank world b g is_main).1.buckets, c'.WF := by
    rw [hB]
    intro c' hc'
    obtain ⟨c, hc, rfl⟩ := List.mem_map.mp hc'
    exact WF_make_divisible_by (hwf c hc) _ _
  obtain ⟨streams, hstreams, hslen, hsgd⟩ :=
    mapM_iter_eq_some (Dataset.post_init R d0 rank world b g is_main).1.buckets hwf'
  have hbounds : ∀ j ∈ (Dataset.post_init R d0 rank world b g is_main).1.iteration_order,
      j < streams.length := by
    intro j hjmem
    rw [hord] at hjmem
    have hraw := mem_shuffled_lt R _ 0 j hjmem
    have hpos : 0 < (rawSelectionOrder
        (Dataset.post_init R d0 rank world b g is_main).1.buckets
        (world * (b * g))).count j := List.count_pos_iff.mpr hraw
    rw [count_rawSelectionOrder] at hpos
    by_cases hlt : j < (Dataset.post_init R d0 rank world b g is_main).1.buckets.length
    · omega
    · rw [if_neg hlt] at hpos
      omega
  have hbounds' : ∀ j ∈ (Dataset.post_init R d0 rank world b g is_main).1.iteration_order,
      j < streams.length := hbounds
  have hcounts : ∀ j, j < streams.length →
      (world * (b * g)) *
          ((Dataset.post_init R d0 rank world b g is_main).1.iteration_order.count j)
        ≤ (streams.getD j []).length := by
    intro j hj
    rw [hslen] at hj
    have hcs : ((Dataset.post_init R d0 rank world b g is_main).1.iteration_order.count j)
        = (rawSelectionOrder (Dataset.post_init R d0 rank world b g is_main).1.buckets
            (world * (b * g))).count j := by
      rw [hord, count_shuffled]
    have hj0 : j < d0.buckets.length := by rw [← hBlen]; exact hj
    rw [hcs, hcount j hj0]
    rw [hsgd j hj]
    rw [hB, getD_map_lt (fun c => (c.make_divisible_by (world * (b * g)) is_main).1)
      d0.buckets j hj0 ⟨[], []⟩ ⟨[], []⟩, len_make_divisible_by]
    rw [Nat.mul_comm]
  obtain ⟨pulls, hpulls, hplen, hpall⟩ :=
    iterPulls_eq_some (world * (b * g))
      (Dataset.post_init R d0 rank world b g is_main).1.iteration_order streams
      hbounds' hcounts
  have hip : (Dataset.post_init R d0 rank world b g is_main).1.iter_pulls = some pulls := by
    rw [Dataset.iter_pulls, hstreams]
    exact hpulls
  refine ⟨rfl, rfl, hord, hcount, pulls, hip, hplen, hpall, ?_, ?_⟩
  · rw [Dataset.iter, hip]
    rfl
  · intro batch hbatch col hcol
    obtain ⟨examples, hex, hbeq⟩ := List.mem_map.mp hbatch
    rw [← hbeq] at hcol
    obtain ⟨x, hx, hceq⟩ := List.mem_map.mp hcol
    have hxlen : x.length = world * (b * g) := by
      rw [length_of_mem_pyZipStar hx, hpall examples hex]
    rw [← hceq, List.length_take, List.length_drop, hxlen]
    have hmul : (rank + 1) * (b * g) ≤ world * (b * g) :=
      Nat.mul_le_mul_right (b * g) (Nat.succ_le_of_lt hrank)
    have hexp : (rank + 1) * (b * g) = rank * (b * g) + b * g := by ring
    omega


/-- A concrete bucket for evaluating the model: one member dataset of two
samples, each a one-tensor tuple. -/
def exampleConcatBucket : ConcatenatedDataset (List Nat) :=
  ConcatenatedDataset.init lcgRandom [[[10], [20]]]

def exampleDataset : Dataset (List Nat) :=
  { buckets := [exampleConcatBucket] }

/-- C4 witness: the theorem applied at a concrete dataset with
`rank = 0, world_size = 1, b = 1, g = 1`. -/
theorem C4_post_init_iteration_witness :
    (∀ c ∈ exampleDataset.buckets, c.WF) ∧ 0 < 1 ∧ 0 < 1 * 1 ∧
    (Dataset.post_init lcgRandom exampleDataset 0 1 1 1 true).1.global_batch_size
      = 1 * (1 * 1) :=
  ⟨by decide, by decide, by decide,
   (C4_post_init_iteration Nat lcgRandom exampleDataset 0 1 1 1 true (by decide)
      (by decide) (by decide)).1⟩

theorem concat_mdb_idem {α : Type} (c : ConcatenatedDataset α) (n : Nat)
    (hn : 0 < n) (m1 m2 : Bool) :
    ((c.make_divisible_by n m1).1.make_divisible_by n m2).1
      = (c.make_divisible_by n m1).1 := by
  have hlen1 := len_make_divisible_by c n m1
  have hdiv : (((c.len / n) * n) / n) * n = (c.len / n) * n := by
    rw [Nat.mul_div_cancel _ hn]
  have h2 : ((c.make_divisible_by n m1).1.make_divisible_by n m2).1.iteration_order
      = (c.make_divisible_by n m1).1.iteration_order := by
    show (c.make_divisible_by n m1).1.iteration_order.take
        ((((c.make_divisible_by n m1).1.len) / n) * n)
      = (c.make_divisible_by n m1).1.iteration_order
    rw [hlen1, hdiv, ← hlen1]
    exact List.take_length _
  have hrepr : ((c.make_divisible_by n m1).1.make_divisible_by n m2).1
      = { (c.make_divisible_by n m1).1 with
          iteration_order :=
            ((c.make_divisible_by n m1).1.make_divisible_by n m2).1.iteration_order } :=
    rfl
  rw [hrepr, h2]

theorem dataset_mdb_idem (R : RandomModule) {α : Type} (d : Dataset α) (n : Nat)
    (hn : 0 < n) (m1 m2 : Bool) :
    (Dataset.make_divisible_by R (Dataset.make_divisible_by R d n m1).1 n m2).1
      = (Dataset.make_divisible_by R d n m1).1 := by
  have hbeq : (Dataset.make_divisible_by R (Dataset.make_divisible_by R d n m1).1 n m2).1.buckets
      = (Dataset.make_divisible_by R d n m1).1.buckets := by
    rw [make_divisible_by_buckets, make_divisible_by_buckets, List.map_map]
    have : ∀ c ∈ d.buckets,
        ((fun c => (ConcatenatedDataset.make_divisible_by c n m2).1) ∘
          fun c => (ConcatenatedDataset.make_divisible_by c n m1).1) c
          = (fun c => (ConcatenatedDataset.make_divisible_by c n m1).1) c := by
      intro c _
      exact concat_mdb_idem c n hn m1 m2
    exact List.map_congr_left this
  have hoeq : (Dataset.make_divisible_by R (Dataset.make_divisible_by R d n m1).1 n m2).1.iteration_order
      = (Dataset.make_divisible_by R d n m1).1.iteration_order := by
    rw [make_divisible_by_order R (Dataset.make_divisible_by R d n m1).1 n m2, hbeq,
      ← make_divisible_by_order R d n m1]
  calc (Dataset.make_divisible_by R (Dataset.make_divisible_by R d n m1).1 n m2).1
      = { (Dataset.make_divisible_by R d n m1).1 with
          buckets :=
            (Dataset.make_divisible_by R (Dataset.make_divisible_by R d n m1).1 n m2).1.buckets,
          iteration_order :=
            (Dataset.make_divisible_by R (Dataset.make_divisible_by R d n m1).1 n m2).1.iteration_order } := rfl
    _ = (Dataset.make_divisible_by R d n m1).1 := by rw [hbeq, hoeq]

/-- C10: trimming is idempotent: immediately repeating
`_make_divisible_by(n)` (for `n ≥ 1`) on a `ConcatenatedDataset`, or on the
top-level `Dataset`, changes nothing — after the first call every length is
already a multiple of `n`, so the second truncation removes nothing and the
seed-0 reshuffle of the identical selection list reproduces the same order. -/
theorem C10_trim_idempotent (α : Type) (R : RandomModule) (c : ConcatenatedDataset α)
    (d : Dataset α) (n : Nat) (hn : 1 ≤ n) (m1 m2 : Bool) :
    ((c.make_divisible_by n m1).1.make_divisible_by n m2).1
        = (c.make_divisible_by n m1).1 ∧
    (Dataset.make_divisible_by R (Dataset.make_divisible_by R d n m1).1 n m2).1
        = (Dataset.make_divisible_by R d n m1).1 :=
  ⟨concat_mdb_idem c n hn m1 m2, dataset_mdb_idem R d n hn m1 m2⟩

/-- C10 witness: idempotence evaluated on a concrete 7-element bucket and a
concrete dataset with `n = 3`. -/
theorem C10_trim_idempotent_witness :
    1 ≤ 3 ∧
    ((ConcatenatedDataset.make_divisible_by
        (ConcatenatedDataset.make_divisible_by
          (⟨[[1, 2, 3, 4, 5, 6, 7]], [0, 0, 0, 0, 0, 0, 0]⟩ : ConcatenatedDataset Nat)
          3 true).1 3 true).1
      = (ConcatenatedDataset.make_divisible_by
          (⟨[[1, 2, 3, 4, 5, 6, 7]], [0, 0, 0, 0, 0, 0, 0]⟩ : ConcatenatedDataset Nat)
          3 true).1) :=
  ⟨by decide,
   (C10_trim_idempotent Nat lcgRandom
      (⟨[[1, 2, 3, 4, 5, 6, 7]], [0, 0, 0, 0, 0, 0, 0]⟩ : ConcatenatedDataset Nat)
      { buckets := [] } 3 (by decide) true true).1⟩


/-- `cache_file = self.cache_dir / f'{cache_file_prefix}{new_fingerprint}.arrow'`
(line 126); filenames are character lists and `pfx` models `cache_file_prefix`. -/
def cacheFileName (pfx fingerprint : List Char) : List Char :=
  pfx ++ fingerprint ++ ".arrow".toList

/-- Whether a filename matches `self.cache_dir.glob(f'{cache_file_prefix}*.arrow')`
(line 131). -/
def globMatch (pfx name : List Char) : Bool :=
  pfx.isPrefixOf name && (".arrow".toList).isSuffixOf name

theorem globMatch_cacheFileName (pfx fingerprint : List Char) :
    globMatch pfx (cacheFileName pfx fingerprint) = true := by
  unfold globMatch cacheFileName
  rw [Bool.and_eq_true]
  constructor
  · rw [List.isPrefixOf_iff_prefix, List.append_assoc]
    exact List.prefix_append _ _
  · rw [List.isSuffixOf_iff_suffix]
    exact List.suffix_append _ _

/-- `datasets.Dataset.map(map_fn, ...)` recomputing a column (external
HuggingFace behaviour at its interface, as the spec describes it): the
function is applied to every sample in order, and a sample on which the
transform signals failure (`None`, e.g. `process_image_fn` on an unreadable
image, lines 83-87) is dropped from the resulting column. -/
def hfMapWithDrops {σ β : Type} (map_fn : σ → Option β) (samples : List σ) : List β :=
  samples.filterMap map_fn

/-- The on-disk cache directory: filename ↦ stored column. -/
structure CacheDir (β : Type) where
  files : List (List Char × List β)

/-- `SizeBucketDataset._map_and_cache` (lines 121-135), after the fingerprint
has been computed (the fingerprint computation itself, with
`_map_and_cache`'s mutable default argument, is modelled separately below):
if the cache file exists the stored column is loaded; otherwise every
`{prefix}*.arrow` file is deleted, then the transform is applied to every
sample in order and the result is persisted under the new fingerprint. -/
def map_and_cache {σ β : Type} (pfx fingerprint : List Char) (samples : List σ)
    (map_fn : σ → Option β) (cd : CacheDir β) : List β × CacheDir β :=
  let cache_file := cacheFileName pfx fingerprint
  match cd.files.lookup cache_file with
  | some col => (col, cd)
  | none =>
      let files' := cd.files.filter fun f => ! globMatch pfx f.1
      let col := hfMapWithDrops map_fn samples
      (col, ⟨(cache_file, col) :: files'⟩)

theorem map_and_cache_hit (σ β : Type) (pfx fingerprint : List Char) (samples : List σ)
    (map_fn : σ → Option β) (cd : CacheDir β) (col : List β)
    (h : cd.files.lookup (cacheFileName pfx fingerprint) = some col) :
    map_and_cache pfx fingerprint samples map_fn cd = (col, cd) := by
  simp only [map_and_cache]
  rw [h]

theorem map_and_cache_miss (σ β : Type) (pfx fingerprint : List Char) (samples : List σ)
    (map_fn : σ → Option β) (cd : CacheDir β)
    (h : cd.files.lookup (cacheFileName pfx fingerprint) = none) :
    map_and_cache pfx fingerprint samples map_fn cd
      = (hfMapWithDrops map_fn samples,
         ⟨(cacheFileName pfx fingerprint, hfMapWithDrops map_fn samples)
           :: cd.files.filter fun f => ! globMatch pfx f.1⟩) := by
  simp only [map_and_cache]
  rw [h]

/-- C3: on a fingerprint hit, nothing is deleted and the stored column is
returned unchanged; on a miss, every other same-prefix cache file is deleted
and the transform's output over all samples in order is persisted under the
new fingerprint, so exactly one same-prefix cache file exists afterward —
hence the at-most-one-generation-per-transform-kind invariant is maintained. -/
theorem C3_map_and_cache_cache_discipline (σ β : Type) (pfx fingerprint : List Char)
    (samples : List σ) (map_fn : σ → Option β) (cd : CacheDir β) :
    (∀ col, cd.files.lookup (cacheFileName pfx fingerprint) = some col →
        map_and_cache pfx fingerprint samples map_fn cd = (col, cd)) ∧
    (cd.files.lookup (cacheFileName pfx fingerprint) = none →
        map_and_cache pfx fingerprint samples map_fn cd
          = (hfMapWithDrops map_fn samples,
             ⟨(cacheFileName pfx fingerprint, hfMapWithDrops map_fn samples)
               :: cd.files.filter fun f => ! globMatch pfx f.1⟩) ∧
        ((map_and_cache pfx fingerprint samples map_fn cd).2.files.filter
            (fun f => globMatch pfx f.1)).map Prod.fst
          = [cacheFileName pfx fingerprint]) ∧
    ((cd.files.filter (fun f => globMatch pfx f.1)).length ≤ 1 →
        ((map_and_cache pfx fingerprint samples map_fn cd).2.files.filter
            (fun f => globMatch pfx f.1)).length ≤ 1) := by
  have hstale : (cd.files.filter fun f : List Char × List β => ! globMatch pfx f.1).filter
      (fun f : List Char × List β => globMatch pfx f.1) = [] := by
    rw [List.filter_filter]
    exact List.filter_eq_nil_iff.mpr
      (fun a _ => by cases globMatch pfx a.1 <;> simp)
  cases hlook : cd.files.lookup (cacheFileName pfx fingerprint) with
  | some col0 =>
    refine ⟨?_, ?_, ?_⟩
    · intro col hcol
      injection hcol with hc
      subst hc
      exact map_and_cache_hit σ β pfx fingerprint samples map_fn cd col0 hlook
    · intro hnone
      cases hnone
    · intro hone
      rw [map_and_cache_hit σ β pfx fingerprint samples map_fn cd col0 hlook]
      exact hone
  | none =>
    have hmiss := map_and_cache_miss σ β pfx fingerprint samples map_fn cd hlook
    have hfilter0 : (((cacheFileName pfx fingerprint, hfMapWithDrops map_fn samples)
        :: cd.files.filter fun f => ! globMatch pfx f.1).filter
        (fun f => globMatch pfx f.1)).map Prod.fst = [cacheFileName pfx fingerprint] := by
      rw [List.filter_cons, if_pos (globMatch_cacheFileName pfx fingerprint), hstale]
      rfl
    have hfilter : ((map_and_cache pfx fingerprint samples map_fn cd).2.files.filter
        (fun f => globMatch pfx f.1)).map Prod.fst = [cacheFileName pfx fingerprint] := by
      rw [hmiss]
      exact hfilter0
    refine ⟨?_, ?_, ?_⟩
    · intro col hcol
      cases hcol
    · intro _
      exact ⟨hmiss, hfilter⟩
    · intro _
      have hlen := congrArg List.length hfilter
      rw [List.length_map] at hlen
      simp only [List.length_cons, List.length_nil] at hlen
      omega

/-- C3 witness: a miss with one stale same-prefix file present leaves exactly
the new fingerprint's file as the only `latent_*.arrow` entry. -/
theorem C3_map_and_cache_cache_discipline_witness :
    ((⟨[(cacheFileName "latent_".toList "old".toList, [5])]⟩ : CacheDir Nat).files.lookup
        (cacheFileName "latent_".toList "abc".toList) = none) ∧
    ((map_and_cache "latent_".toList "abc".toList [1, 2] (fun s => some s)
        (⟨[(cacheFileName "latent_".toList "old".toList, [5])]⟩ : CacheDir Nat)).2.files.filter
        (fun f => globMatch "latent_".toList f.1)).map Prod.fst
      = [cacheFileName "latent_".toList "abc".toList] :=
  ⟨by decide,
   ((C3_map_and_cache_cache_discipline Nat Nat "latent_".toList "abc".toList [1, 2]
      (fun s => some s)
      (⟨[(cacheFileName "latent_".toList "old".toList, [5])]⟩ : CacheDir Nat)).2.1
      (by decide)).2⟩


/-- The `SizeBucketDataset` state relevant to its length (lines 98-161):
`image_file_and_caption_dataset` is the caption-processed sample list built in
`__init__` (abstract sample type `σ`), `latent_dataset` the cached latents
column populated by `_cache_latents`. -/
structure SizeBucketDataset (σ τ : Type) where
  image_file_and_caption_dataset : List σ
  latent_dataset : List τ

/-- `SizeBucketDataset.__len__` (lines 160-161):
`return len(self.image_file_and_caption_dataset)`. -/
def SizeBucketDataset.len {σ τ : Type} (d : SizeBucketDataset σ τ) : Nat :=
  d.image_file_and_caption_dataset.length

/-- `_cache_latents` (145-147) populating the latents column through
`_map_and_cache` with `process_image_fn` (80-93): a sample whose image cannot
be opened yields `None` and is dropped from the column (fresh-cache path;
`process_image : σ → Option τ` is the crop/resize + VAE encoding of one
sample, `None` on open failure). -/
def SizeBucketDataset.cache_latents {σ τ : Type} (d : SizeBucketDataset σ τ)
    (process_image : σ → Option τ) : SizeBucketDataset σ τ :=
  { d with latent_dataset := hfMapWithDrops process_image d.image_file_and_caption_dataset }

/-- C6 counterexample: two discovered samples, one failing the latent
transform — the cached column keeps 1 sample, yet `__len__` still reports 2,
so the reported length is the original discovered count, not the surviving
count the claim asserts. -/
theorem C6_len_counterexample :
    ((SizeBucketDataset.cache_latents (⟨[0, 1], []⟩ : SizeBucketDataset Nat Nat)
        (fun s => if s = 0 then some 0 else none)).latent_dataset).length = 1 ∧
    (SizeBucketDataset.cache_latents (⟨[0, 1], []⟩ : SizeBucketDataset Nat Nat)
        (fun s => if s = 0 then some 0 else none)).len = 2 ∧
    ¬ ((SizeBucketDataset.cache_latents (⟨[0, 1], []⟩ : SizeBucketDataset Nat Nat)
          (fun s => if s = 0 then some 0 else none)).len
        = ((SizeBucketDataset.cache_latents (⟨[0, 1], []⟩ : SizeBucketDataset Nat Nat)
            (fun s => if s = 0 then some 0 else none)).latent_dataset).length) := by
  decide

theorem length_filterMap_of_isSome {σ τ : Type} (f : σ → Option τ) :
    ∀ l : List σ, (∀ s ∈ l, (f s).isSome) → (l.filterMap f).length = l.length := by
  intro l
  induction l with
  | nil => intro _; rfl
  | cons a t ih =>
    intro h
    have ha := h a (List.mem_cons_self a t)
    obtain ⟨v, hv⟩ := Option.isSome_iff_exists.mp ha
    rw [List.filterMap_cons, hv, List.length_cons,
      ih (fun s hs => h s (List.mem_cons_of_mem _ hs))]
    rfl

/-- C6 amended: after `_cache_latents`, `__len__` returns the original
(caption-dataset) sample count unconditionally; it equals the number of
samples surviving the cached transform exactly when no sample was dropped. -/
theorem C6_len_is_original_count (σ τ : Type) (d : SizeBucketDataset σ τ)
    (process_image : σ → Option τ) :
    (d.cache_latents process_image).len = d.image_file_and_caption_dataset.length ∧
    ((∀ s ∈ d.image_file_and_caption_dataset, (process_image s).isSome) →
      (d.cache_latents process_image).len
        = (d.cache_latents process_image).latent_dataset.length) := by
  refine ⟨rfl, ?_⟩
  intro h
  exact (length_filterMap_of_isSome process_image d.image_file_and_caption_dataset h).symm

/-- C6 witness: with no failing sample, length and surviving count agree. -/
theorem C6_len_is_original_count_witness :
    (∀ s ∈ (⟨[7, 8], []⟩ : SizeBucketDataset Nat Nat).image_file_and_caption_dataset,
        ((fun s => some (s + 1)) s).isSome) ∧
    ((⟨[7, 8], []⟩ : SizeBucketDataset Nat Nat).cache_latents (fun s => some (s + 1))).len
      = ((⟨[7, 8], []⟩ : SizeBucketDataset Nat Nat).cache_latents
          (fun s => some (s + 1))).latent_dataset.length :=
  ⟨by decide,
   (C6_len_is_original_count Nat Nat (⟨[7, 8], []⟩ : SizeBucketDataset Nat Nat)
      (fun s => some (s + 1))).2 (by decide)⟩


/-- The state of `_map_and_cache`'s default argument `new_fingerprint_args=[]`
(line 121): in Python that default list is a single mutable object created
once at function definition and shared by every call that does not pass the
argument, and line 124's `new_fingerprint_args.append(dataset._fingerprint)`
mutates it in place.  Base fingerprints and extra parameters are abstracted
as `Nat`. -/
structure MapAndCacheDefaults where
  new_fingerprint_args : List Nat

/-- One `_map_and_cache` fingerprint computation (lines 121-125).
`explicit = some args` models a call passing a fresh list
`new_fingerprint_args=args` (as `_cache_text_embedding`, line 151, does with
`[i]`); `explicit = none` models a call using the shared default (as
`_cache_latents`, line 147, does).  `hash` is `datasets.fingerprint.Hasher.hash`
(external, abstract).  Returns `Hasher.hash(new_fingerprint_args)` and the
possibly mutated default-argument state. -/
def map_and_cache_fingerprint (hash : List Nat → Nat) (st : MapAndCacheDefaults)
    (explicit : Option (List Nat)) (base_fingerprint : Nat) :
    Nat × MapAndCacheDefaults :=
  match explicit with
  | some args => (hash (args ++ [base_fingerprint]), st)
  | none =>
      let args := st.new_fingerprint_args ++ [base_fingerprint]
      (hash args, { st with new_fingerprint_args := args })

/-- `_cache_latents` (line 147): calls `_map_and_cache` with the default
`new_fingerprint_args`. -/
def cache_latents_fingerprint (hash : List Nat → Nat) (st : MapAndCacheDefaults)
    (base_fingerprint : Nat) : Nat × MapAndCacheDefaults :=
  map_and_cache_fingerprint hash st none base_fingerprint

/-- `_cache_text_embedding` (line 151): passes a fresh `new_fingerprint_args=[i]`. -/
def cache_text_embedding_fingerprint (hash : List Nat → Nat) (st : MapAndCacheDefaults)
    (i : Nat) (base_fingerprint : Nat) : Nat × MapAndCacheDefaults :=
  map_and_cache_fingerprint hash st (some [i]) base_fingerprint

/-- C1 (code bug): the fingerprint `_cache_latents` computes is NOT a pure
function of the call's extra parameters and base fingerprint.  In a fresh
process (default list `[]`), caching dataset A (base fingerprint 0) and then
dataset B (base fingerprint 1) hands `Hasher.hash` the accumulated list
`[0, 1]` for B, whereas caching B first hands it `[1]` — different argument
lists, and different fingerprints under the instantiated hash — although both
calls have identical extra parameters and base fingerprint.  The classic
Python mutable-default-argument slip on line 121. -/
theorem C1_fingerprint_depends_on_call_history :
    (cache_latents_fingerprint List.length
        (cache_latents_fingerprint List.length ⟨[]⟩ 0).2 1).2.new_fingerprint_args
      = [0, 1] ∧
    (cache_latents_fingerprint List.length ⟨[]⟩ 1).2.new_fingerprint_args = [1] ∧
    ¬ ((cache_latents_fingerprint List.length
          (cache_latents_fingerprint List.length ⟨[]⟩ 0).2 1).1
        = (cache_latents_fingerprint List.length ⟨[]⟩ 1).1) ∧
    (∀ st : MapAndCacheDefaults, ∀ hash : List Nat → Nat, ∀ i base : Nat,
      (cache_text_embedding_fingerprint hash st i base).1 = hash [i, base]) := by
  refine ⟨rfl, rfl, by decide, fun st hash i base => rfl⟩

/-- `torch.split(tensor, split_size)` (external, at its interface):
consecutive dim-0 chunks of size `split_size`, last chunk possibly smaller. -/
def torchSplit {T : Type} (tensor : List T) (split_size : Nat) : List (List T) :=
  if split_size = 0 then []
  else (List.range ((tensor.length + split_size - 1) / split_size)).map fun m =>
    (tensor.drop (m * split_size)).take split_size

/-- `split_batch(batch, pieces)` (lines 340-346):
`split_size = example_tuple[0].size(0) // pieces`, then
`zip(*(torch.split(tensor, split_size) for tensor in example_tuple))`.
The constant-`None` labels pairing is dropped. -/
def split_batch {T : Type} [Inhabited T] (batch : List (List T)) (pieces : Nat) :
    List (List (List T)) :=
  let split_size := (batch.headD []).length / pieces
  pyZipStar (batch.map fun tensor => torchSplit tensor split_size)

/-- `PipelineDataLoader` (lines 351-390): the wrapped finite batch sequence,
`gradient_accumulation_steps`, the `epoch` counter, and the remaining
microbatches `data` of the current pass.  (`num_batches_pulled` is
checkpoint-resumption bookkeeping orthogonal to the claims; not modelled.) -/
structure PipelineDataLoader (T : Type) where
  dataset : List (List (List T))
  gradient_accumulation_steps : Nat
  epoch : Nat
  data : List (List (List T))

/-- The microbatch sequence `_pull_batches_from_dataloader` (386-390) yields
over one pass: each batch of the dataset, in order, split into
gradient-accumulation microbatches. -/
def pull_batches {T : Type} [Inhabited T] (dataset : List (List (List T)))
    (gradient_accumulation_steps : Nat) : List (List (List T)) :=
  (dataset.map fun batch => split_batch batch gradient_accumulation_steps).flatten

/-- `_create_dataloader` (377-384): rebuild the pass from scratch. -/
def PipelineDataLoader.create_dataloader {T : Type} [Inhabited T]
    (pl : PipelineDataLoader T) : PipelineDataLoader T :=
  { pl with data := pull_batches pl.dataset pl.gradient_accumulation_steps }

/-- `reset` (357-360): `epoch = 1`, rebuild the dataloader. -/
def PipelineDataLoader.reset {T : Type} [Inhabited T] (pl : PipelineDataLoader T) :
    PipelineDataLoader T :=
  PipelineDataLoader.create_dataloader { pl with epoch := 1 }

/-- `__init__` (352-355). -/
def mkPipelineDataLoader {T : Type} [Inhabited T] (dataset : List (List (List T)))
    (gradient_accumulation_steps : Nat) : PipelineDataLoader T :=
  PipelineDataLoader.reset ⟨dataset, gradient_accumulation_steps, 1, []⟩

/-- `__next__` (368-375): yield the next microbatch of the current pass; on
`StopIteration`, rebuild the dataloader from scratch, yield the first
microbatch of the new pass, and increment `epoch`.  `none` models the
unhandled empty-pass case. -/
def PipelineDataLoader.next {T : Type} [Inhabited T] (pl : PipelineDataLoader T) :
    Option (List (List T) × PipelineDataLoader T) :=
  match pl.data with
  | m :: rest => some (m, { pl with data := rest })
  | [] =>
      match pull_batches pl.dataset pl.gradient_accumulation_steps with
      | m :: rest => some (m, { pl with data := rest, epoch := pl.epoch + 1 })
      | [] => none

/-- `plIterate k pl` is the outcome of the `(k+1)`-th `next()` call starting
from `pl` (threading the loader state through the first `k` calls). -/
def plIterate {T : Type} [Inhabited T] :
    Nat → PipelineDataLoader T → Option (List (List T) × PipelineDataLoader T)
  | 0, pl => pl.next
  | k + 1, pl => (pl.next).bind fun p => plIterate k p.2

/-- C7: the epoch counter starts at 1; `next()` yields the next microbatch of
the current pass with the epoch unchanged, and exactly on exhaustion rebuilds
the pass from scratch, increments the epoch, and yields the first microbatch
of the new pass; over a 2-batch dataset with `grad_accum_steps = 2` the first
4 calls carry epoch 1 and the 5th call carries epoch 2. -/
theorem C7_pipeline_dataloader_epoch (T : Type) [Inhabited T]
    (dataset : List (List (List T))) (g : Nat) (pl : PipelineDataLoader T)
    (m : List (List T)) (rest : List (List (List T))) :
    (mkPipelineDataLoader dataset g).epoch = 1 ∧
    (pl.data = m :: rest →
      pl.next = some (m, { pl with data := rest }) ∧
      ∀ q, pl.next = some q → q.2.epoch = pl.epoch) ∧
    (pl.data = [] →
      ∀ m' rest', pull_batches pl.dataset pl.gradient_accumulation_steps = m' :: rest' →
        pl.next = some (m', { pl with data := rest', epoch := pl.epoch + 1 })) ∧
    (∀ k, k < 4 →
      ∃ p, plIterate k (mkPipelineDataLoader [[[(0 : Nat), 1]], [[2, 3]]] 2) = some p ∧
        p.2.epoch = 1) ∧
    (∃ p, plIterate 4 (mkPipelineDataLoader [[[(0 : Nat), 1]], [[2, 3]]] 2) = some p ∧
      p.2.epoch = 2) := by
  refine ⟨rfl, ?_, ?_, by decide, by decide⟩
  · intro hdata
    have hnext : pl.next = some (m, { pl with data := rest }) := by
      simp only [PipelineDataLoader.next, hdata]
    refine ⟨hnext, ?_⟩
    intro q hq
    rw [hnext] at hq
    injection hq with hq'
    rw [← hq']
  · intro hdata m' rest' hpull
    simp only [PipelineDataLoader.next, hdata, hpull]

/-- C7 witness: the first `next()` call on the concrete 2-batch loader yields
the head microbatch without touching the epoch. -/
theorem C7_pipeline_dataloader_epoch_witness :
    ((mkPipelineDataLoader [[[(0 : Nat), 1]], [[2, 3]]] 2).data
        = [[0]] :: [[[1]], [[2]], [[3]]]) ∧
    (mkPipelineDataLoader [[[(0 : Nat), 1]], [[2, 3]]] 2).next
      = some ([[0]],
          { mkPipelineDataLoader [[[(0 : Nat), 1]], [[2, 3]]] 2 with
            data := [[[1]], [[2]], [[3]]] }) :=
  ⟨by decide,
   ((C7_pipeline_dataloader_epoch Nat [[[(0 : Nat), 1]], [[2, 3]]] 2
      (mkPipelineDataLoader [[[(0 : Nat), 1]], [[2, 3]]] 2) [[0]]
      [[[1]], [[2]], [[3]]]).2.1 (by decide)).1⟩


/-- `str.strip()` on a character-list string: drop leading and trailing
whitespace. -/
def pyStrip (s : List Char) : List Char :=
  ((s.dropWhile Char.isWhitespace).reverse.dropWhile Char.isWhitespace).reverse

/-- `str.split(',')`: split at every comma (empty pieces preserved). -/
def pySplitComma : List Char → List (List Char)
  | [] => [[]]
  | c :: rest =>
      if c = ',' then [] :: pySplitComma rest
      else
        match pySplitComma rest with
        | [] => [[c]]
        | w :: ws => (c :: w) :: ws

/-- `', '.join(tags)`. -/
def pyJoinCommaSpace : List (List Char) → List Char
  | [] => []
  | [t] => t
  | t :: ts => t ++ ',' :: ' ' :: pyJoinCommaSpace ts

/-- `process_caption_fn(shuffle_tags, caption_prefix)` applied to one sample
(lines 65-77), threading the ambient global `random` state: the caption
file's contents (a character-list string) are stripped; when `shuffle_tags`
is set the comma-separated tags are each stripped and then shuffled with the
UNSEEDED global `random.shuffle` (line 71) — consuming and depending on the
ambient generator state — and joined with `', '`; finally the caption prefix
(`captionPre`, modelling `caption_prefix`) is prepended. -/
def process_caption_fn (R : RandomModule) (shuffle_tags : Bool) (captionPre : List Char)
    (caption_file_contents : List Char) (s : R.State) : List Char × R.State :=
  let caption := pyStrip caption_file_contents
  if shuffle_tags then
    let tags := (pySplitComma caption).map pyStrip
    let p := pyShuffle R tags s
    (captionPre ++ pyJoinCommaSpace p.1, p.2)
  else
    (captionPre ++ caption, s)

/-- The construction-time caption processing of `SizeBucketDataset.__init__`
(lines 112-118): `shuffle_with_seed(image_and_caption_files, seed=0)` (the
ambient state is restored afterwards, so the state reaching the caption map
is still `s`), then `ds.map(process_caption_fn(...))` over the shuffled
`(image_file, caption_file)` pairs in order, threading the ambient global
`random` state through the per-sample calls.  `read_file` is the filesystem
(caption-file contents by caption-file name).  Returns the shuffled file list
and the caption column, plus the final ambient state. -/
def build_caption_dataset (R : RandomModule) (shuffle_tags : Bool)
    (captionPre : List Char) (filepaths : List (List Char × List Char))
    (read_file : List Char → List Char) (s : R.State) :
    (List (List Char × List Char) × List (List Char)) × R.State :=
  let files := (shuffle_with_seed R filepaths 0 s).1
  let res := files.foldl
    (fun (acc : List (List Char) × R.State) fp =>
      let r := process_caption_fn R shuffle_tags captionPre (read_file fp.2) acc.2
      (acc.1 ++ [r.1], r.2))
    ([], (shuffle_with_seed R filepaths 0 s).2)
  ((files, res.1), res.2)

/-- C2 counterexample: with `shuffle_tags = true`, the same configuration and
input files produce different caption columns from two different ambient
generator states (two runs of the process, whose global generator is seeded
from OS entropy at startup) — the caption column is not a pure function of
the inputs, so full-pipeline run-to-run determinism fails when
`shuffle_tags` is true. -/
theorem C2_caption_column_counterexample :
    ¬ ((build_caption_dataset lcgRandom true [] [("img".toList, "cap".toList)]
          (fun _ => "a,b".toList) (show lcgRandom.State from (0 : Nat))).1.2
        = (build_caption_dataset lcgRandom true [] [("img".toList, "cap".toList)]
          (fun _ => "a,b".toList) (show lcgRandom.State from (1 : Nat))).1.2) := by
  decide

theorem build_caption_fold_false (R : RandomModule) (captionPre : List Char)
    (read_file : List Char → List Char) :
    ∀ (files : List (List Char × List Char)) (acc : List (List Char)) (s0 : R.State),
      files.foldl
        (fun (acc : List (List Char) × R.State) fp =>
          let r := process_caption_fn R false captionPre (read_file fp.2) acc.2
          (acc.1 ++ [r.1], r.2)) (acc, s0)
      = (acc ++ files.map (fun fp => captionPre ++ pyStrip (read_file fp.2)), s0) := by
  intro files
  induction files with
  | nil =>
    intro acc s0
    simp
  | cons fp t ih =>
    intro acc s0
    rw [List.foldl_cons]
    show t.foldl _ (acc ++ [captionPre ++ pyStrip (read_file fp.2)], s0) = _
    rw [ih]
    simp

/-- C2 amended: with `shuffle_tags = false` (any caption prefix), construction
and caption processing are pure functions of the inputs: two runs from
arbitrary ambient generator states produce the identical shuffled sample
order and identical caption column — and leave the ambient state untouched —
so the downstream (purely functional) pipeline stages produce identical
batches on every rank in both runs. -/
theorem C2_determinism_without_shuffle_tags (R : RandomModule) (captionPre : List Char)
    (filepaths : List (List Char × List Char)) (read_file : List Char → List Char)
    (s s' : R.State) :
    (build_caption_dataset R false captionPre filepaths read_file s).1
      = (build_caption_dataset R false captionPre filepaths read_file s').1 ∧
    (build_caption_dataset R false captionPre filepaths read_file s).1
      = (shuffled R filepaths 0,
         (shuffled R filepaths 0).map (fun fp => captionPre ++ pyStrip (read_file fp.2))) ∧
    (build_caption_dataset R false captionPre filepaths read_file s).2 = s := by
  have hrun : ∀ s0 : R.State,
      build_caption_dataset R false captionPre filepaths read_file s0
        = ((shuffled R filepaths 0,
            (shuffled R filepaths 0).map (fun fp => captionPre ++ pyStrip (read_file fp.2))),
           s0) := by
    intro s0
    show ((shuffled R filepaths 0,
        (List.foldl
          (fun (acc : List (List Char) × R.State) fp =>
            let r := process_caption_fn R false captionPre (read_file fp.2) acc.2
            (acc.1 ++ [r.1], r.2)) ([], s0) (shuffled R filepaths 0)).1),
      (List.foldl
          (fun (acc : List (List Char) × R.State) fp =>
            let r := process_caption_fn R false captionPre (read_file fp.2) acc.2
            (acc.1 ++ [r.1], r.2)) ([], s0) (shuffled R filepaths 0)).2) = _
    rw [build_caption_fold_false R captionPre read_file (shuffled R filepaths 0) [] s0]
    rfl
  rw [hrun s, hrun s']
  exact ⟨rfl, rfl, rfl⟩


/-- A directory entry as `_split_into_size_buckets` observes it (lines
265-302): path stem and suffix, `is_file()`, and — when PIL can open it —
the image's `(width, height)` (`none` models an unreadable file). -/
structure FileRec where
  stem : List Char
  suffix : List Char
  is_file : Bool
  image : Option (Nat × Nat)
deriving DecidableEq

def FileRec.name (f : FileRec) : List Char := f.stem ++ f.suffix

/-- Lexicographic comparison on names for `files.sort()` (lines 270-272). -/
def lexLe : List Char → List Char → Bool
  | [], _ => true
  | _ :: _, [] => false
  | a :: as, b :: bs => if a = b then lexLe as bs else decide (a < b)

def insertLexLe (f : FileRec) : List FileRec → List FileRec
  | [] => [f]
  | g :: t => if lexLe f.name g.name then f :: g :: t else g :: insertLexLe f t

/-- `files = list(Path(path).glob('*')); files.sort()` — insertion sort by
name (the deterministic order; the claims below do not depend on which
sorted order results). -/
def sortFiles : List FileRec → List FileRec
  | [] => []
  | f :: t => insertLexLe f (sortFiles t)

/-- The warnings the scan logs. -/
inductive ScanWarning
  | missing_caption (image_file : List Char)
  | unreadable_image (image_file : List Char)
deriving DecidableEq

/-- The best-bucket fold of `_find_closest_size_bucket` (lines 292-302), with
exact rational aspect ratios standing in for Python floats; the `none` diff
is the initial `float('inf')`. -/
def closestSizeBucket (ar : ℚ) (size_buckets : List (Nat × Nat)) : Option (Nat × Nat) :=
  (size_buckets.foldl
    (fun (acc : Option (Nat × Nat) × Option ℚ) size_bucket =>
      let bucket_ar : ℚ := (size_bucket.1 : ℚ) / (size_bucket.2 : ℚ)
      let ar_diff := |bucket_ar - ar|
      match acc.2 with
      | none => (some size_bucket, some ar_diff)
      | some best_ar_diff =>
          if ar_diff < best_ar_diff then (some size_bucket, some ar_diff) else acc)
    (none, none)).1

/-- `_find_closest_size_bucket` (lines 286-302): an unreadable image logs a
warning and returns `None`; otherwise the candidate bucket with the closest
aspect ratio (`None` only when there are no candidates). -/
def find_closest_size_bucket (image_file : List Char) (image : Option (Nat × Nat))
    (size_buckets : List (Nat × Nat)) : Option (Nat × Nat) × List ScanWarning :=
  match image with
  | none => (none, [ScanWarning.unreadable_image image_file])
  | some wh => (closestSizeBucket ((wh.1 : ℚ) / (wh.2 : ℚ)) size_buckets, [])

/-- `size_bucket_to_filepaths = defaultdict(list)` keyed by size bucket:
append, preserving key insertion order. -/
def addToBucket {π : Type} :
    List ((Nat × Nat) × List π) → (Nat × Nat) → π → List ((Nat × Nat) × List π)
  | [], k, v => [(k, [v])]
  | (k', vs) :: t, k, v =>
      if k' = k then (k', vs ++ [v]) :: t else (k', vs) :: addToBucket t k v

/-- One iteration of the `for file in files` loop of
`_split_into_size_buckets` (lines 273-283).  `entries` is the directory's
content (against which `os.path.exists(caption_file)` is checked). -/
def scanStep (entries : List FileRec) (size_buckets : List (Nat × Nat))
    (acc : List ((Nat × Nat) × List (List Char × List Char)) × List ScanWarning)
    (file : FileRec) :
    List ((Nat × Nat) × List (List Char × List Char)) × List ScanWarning :=
  if file.is_file = false ∨ file.suffix = ".txt".toList then acc
  else if entries.any (fun g => g.name == file.stem ++ ".txt".toList) then
    match find_closest_size_bucket (FileRec.name file) file.image size_buckets with
    | (some size_bucket, w) =>
        (addToBucket acc.1 size_bucket (FileRec.name file, file.stem ++ ".txt".toList),
         acc.2 ++ w)
    | (none, w) => (acc.1, acc.2 ++ w)
  else
    (acc.1, acc.2 ++ [ScanWarning.missing_caption (FileRec.name file)])

/-- `_split_into_size_buckets(path, size_buckets)` (lines 265-284): a missing
or non-directory path raises `RuntimeError` (`Except.error`); otherwise the
sorted entries are scanned, accumulating buckets and warnings. -/
def split_into_size_buckets (dir : Option (List FileRec))
    (size_buckets : List (Nat × Nat)) :
    Except (List Char)
      (List ((Nat × Nat) × List (List Char × List Char)) × List ScanWarning) :=
  match dir with
  | none => Except.error ("Invalid path".toList)
  | some entries =>
      Except.ok ((sortFiles entries).foldl (scanStep entries size_buckets) ([], []))

theorem mem_insertLexLe (f x : FileRec) :
    ∀ l, x ∈ insertLexLe f l ↔ x = f ∨ x ∈ l := by
  intro l
  induction l with
  | nil => simp [insertLexLe]
  | cons g t ih =>
    unfold insertLexLe
    split
    · simp [List.mem_cons]
    · rw [List.mem_cons, ih, List.mem_cons]
      tauto

theorem mem_sortFiles (x : FileRec) : ∀ l, x ∈ sortFiles l ↔ x ∈ l := by
  intro l
  induction l with
  | nil => simp [sortFiles]
  | cons f t ih =>
    unfold sortFiles
    rw [mem_insertLexLe, ih, List.mem_cons]

theorem scanStep_skip (entries : List FileRec) (size_buckets : List (Nat × Nat))
    (acc : List ((Nat × Nat) × List (List Char × List Char)) × List ScanWarning)
    (f : FileRec) (h : f.is_file = false ∨ f.suffix = ".txt".toList) :
    scanStep entries size_buckets acc f = acc := by
  unfold scanStep
  rw [if_pos h]

theorem not_skip_cond {f : FileRec} (h1 : f.is_file = true)
    (h2 : f.suffix ≠ ".txt".toList) :
    ¬ (f.is_file = false ∨ f.suffix = ".txt".toList) := by
  intro hor
  rcases hor with hf | hs
  · rw [h1] at hf
    cases hf
  · exact h2 hs

theorem scanStep_missing (entries : List FileRec) (size_buckets : List (Nat × Nat))
    (acc : List ((Nat × Nat) × List (List Char × List Char)) × List ScanWarning)
    (f : FileRec) (h1 : f.is_file = true) (h2 : f.suffix ≠ ".txt".toList)
    (h3 : (entries.any fun g => g.name == f.stem ++ ".txt".toList) = false) :
    scanStep entries size_buckets acc f
      = (acc.1, acc.2 ++ [ScanWarning.missing_caption (FileRec.name f)]) := by
  unfold scanStep
  rw [if_neg (not_skip_cond h1 h2)]
  rw [if_neg (by rw [h3]; exact Bool.false_ne_true)]

theorem scanStep_unreadable (entries : List FileRec) (size_buckets : List (Nat × Nat))
    (acc : List ((Nat × Nat) × List (List Char × List Char)) × List ScanWarning)
    (f : FileRec) (h1 : f.is_file = true) (h2 : f.suffix ≠ ".txt".toList)
    (h3 : (entries.any fun g => g.name == f.stem ++ ".txt".toList) = true)
    (h4 : f.image = none) :
    scanStep entries size_buckets acc f
      = (acc.1, acc.2 ++ [ScanWarning.unreadable_image (FileRec.name f)]) := by
  unfold scanStep
  rw [if_neg (not_skip_cond h1 h2), if_pos h3]
  rw [show find_closest_size_bucket (FileRec.name f) f.image size_buckets
      = (none, [ScanWarning.unreadable_image (FileRec.name f)]) from by rw [h4]; rfl]

theorem scanStep_nobucket (entries : List FileRec) (size_buckets : List (Nat × Nat))
    (acc : List ((Nat × Nat) × List (List Char × List Char)) × List ScanWarning)
    (f : FileRec) (h1 : f.is_file = true) (h2 : f.suffix ≠ ".txt".toList)
    (h3 : (entries.any fun g => g.name == f.stem ++ ".txt".toList) = true)
    (wh : Nat × Nat) (h4 : f.image = some wh)
    (h5 : closestSizeBucket ((wh.1 : ℚ) / (wh.2 : ℚ)) size_buckets = none) :
    scanStep entries size_buckets acc f = (acc.1, acc.2 ++ []) := by
  unfold scanStep
  rw [if_neg (not_skip_cond h1 h2), if_pos h3]
  rw [show find_closest_size_bucket (FileRec.name f) f.image size_buckets
      = (none, []) from by rw [h4]; show (closestSizeBucket _ _, _) = _; rw [h5]]

theorem scanStep_add (entries : List FileRec) (size_buckets : List (Nat × Nat))
    (acc : List ((Nat × Nat) × List (List Char × List Char)) × List ScanWarning)
    (f : FileRec) (h1 : f.is_file = true) (h2 : f.suffix ≠ ".txt".toList)
    (h3 : (entries.any fun g => g.name == f.stem ++ ".txt".toList) = true)
    (wh : Nat × Nat) (h4 : f.image = some wh) (sb : Nat × Nat)
    (h5 : closestSizeBucket ((wh.1 : ℚ) / (wh.2 : ℚ)) size_buckets = some sb) :
    scanStep entries size_buckets acc f
      = (addToBucket acc.1 sb (FileRec.name f, f.stem ++ ".txt".toList),
         acc.2 ++ []) := by
  unfold scanStep
  rw [if_neg (not_skip_cond h1 h2), if_pos h3]
  rw [show find_closest_size_bucket (FileRec.name f) f.image size_buckets
      = (some sb, []) from by rw [h4]; show (closestSizeBucket _ _, _) = _; rw [h5]]

theorem scan_warnings_mono (entries : List FileRec) (size_buckets : List (Nat × Nat)) :
    ∀ (fs : List FileRec)
      (acc : List ((Nat × Nat) × List (List Char × List Char)) × List ScanWarning)
      (w : ScanWarning), w ∈ acc.2 →
      w ∈ (fs.foldl (scanStep entries size_buckets) acc).2 := by
  intro fs
  induction fs with
  | nil => exact fun acc w hw => hw
  | cons f t ih =>
    intro acc w hw
    rw [List.foldl_cons]
    apply ih
    unfold scanStep
    split
    · exact hw
    · split
      · split
        · exact List.mem_append_left _ hw
        · exact List.mem_append_left _ hw
      · exact List.mem_append_left _ hw

theorem foldl_warning_of_mem (entries : List FileRec) (size_buckets : List (Nat × Nat))
    (w : ScanWarning) (f : FileRec)
    (hstep : ∀ acc, (scanStep entries size_buckets acc f).2 = acc.2 ++ [w]) :
    ∀ (fs : List FileRec), f ∈ fs →
      ∀ acc, w ∈ (fs.foldl (scanStep entries size_buckets) acc).2 := by
  intro fs
  induction fs with
  | nil => intro h; cases h
  | cons x t ih =>
    intro hmem acc
    rw [List.foldl_cons]
    rcases List.mem_cons.mp hmem with heq | hmem'
    · subst heq
      apply scan_warnings_mono entries size_buckets t _ w
      rw [hstep acc]
      exact List.mem_append_right _ (List.mem_singleton.mpr rfl)
    · exact ih hmem' _

/-- Every `(image_file, caption_file)` pair a scan accumulates comes from an
entry that is a regular non-caption file with an existing same-stem caption
and a readable image. -/
def GoodPair (entries : List FileRec) (p : List Char × List Char) : Prop :=
  ∃ g ∈ entries, g.is_file = true ∧ g.suffix ≠ ".txt".toList ∧
    (∃ g' ∈ entries, FileRec.name g' = g.stem ++ ".txt".toList) ∧
    g.image.isSome = true ∧ p.1 = FileRec.name g

theorem addToBucket_mem {π : Type} :
    ∀ (l : List ((Nat × Nat) × List π)) (k : Nat × Nat) (v : π) (sb : Nat × Nat)
      (pairs : List π), (sb, pairs) ∈ addToBucket l k v →
      ∀ p ∈ pairs, (∃ pairs0, (sb, pairs0) ∈ l ∧ p ∈ pairs0) ∨ p = v := by
  intro l
  induction l with
  | nil =>
    intro k v sb pairs hmem p hp
    have heq := List.mem_singleton.mp hmem
    injection heq with h1 h2
    subst h2
    right
    exact List.mem_singleton.mp hp
  | cons a t ih =>
    obtain ⟨k', vs⟩ := a
    intro k v sb pairs hmem p hp
    by_cases hk : k' = k
    · rw [show addToBucket ((k', vs) :: t) k v = (k', vs ++ [v]) :: t from by
        conv_lhs => rw [addToBucket]
        rw [if_pos hk]] at hmem
      rcases List.mem_cons.mp hmem with heq | hmem'
      · injection heq with h1 h2
        subst h1 h2
        rcases List.mem_append.mp hp with hv | hv
        · exact Or.inl ⟨vs, List.mem_cons_self _ _, hv⟩
        · exact Or.inr (List.mem_singleton.mp hv)
      · exact Or.inl ⟨pairs, List.mem_cons_of_mem _ hmem', hp⟩
    · rw [show addToBucket ((k', vs) :: t) k v = (k', vs) :: addToBucket t k v from by
        conv_lhs => rw [addToBucket]
        rw [if_neg hk]] at hmem
      rcases List.mem_cons.mp hmem with heq | hmem'
      · injection heq with h1 h2
        subst h1 h2
        exact Or.inl ⟨pairs, List.mem_cons_self _ _, hp⟩
      · rcases ih k v sb pairs hmem' p hp with ⟨pairs0, hp0, hpp⟩ | hv
        · exact Or.inl ⟨pairs0, List.mem_cons_of_mem _ hp0, hpp⟩
        · exact Or.inr hv

theorem scan_pairs_good (entries : List FileRec) (size_buckets : List (Nat × Nat)) :
    ∀ (fs : List FileRec), (∀ f ∈ fs, f ∈ entries) →
      ∀ (acc : List ((Nat × Nat) × List (List Char × List Char)) × List ScanWarning),
        (∀ sb pairs, (sb, pairs) ∈ acc.1 → ∀ p ∈ pairs, GoodPair entries p) →
        ∀ sb pairs, (sb, pairs) ∈ (fs.foldl (scanStep entries size_buckets) acc).1 →
          ∀ p ∈ pairs, GoodPair entries p := by
  intro fs
  induction fs with
  | nil => exact fun _ acc hacc => hacc
  | cons f t ih =>
    intro hsub acc hacc
    rw [List.foldl_cons]
    apply ih (fun x hx => hsub x (List.mem_cons_of_mem _ hx))
    by_cases hskip : f.is_file = false ∨ f.suffix = ".txt".toList
    · rw [scanStep_skip entries size_buckets acc f hskip]
      exact hacc
    · have h1 : f.is_file = true := by
        cases hval : f.is_file
        · exact absurd (Or.inl hval) hskip
        · rfl
      have h2 : f.suffix ≠ ".txt".toList := fun h => hskip (Or.inr h)
      by_cases hany : (entries.any fun g => g.name == f.stem ++ ".txt".toList) = true
      · cases himg : f.image with
        | none =>
          rw [scanStep_unreadable entries size_buckets acc f h1 h2 hany himg]
          exact hacc
        | some wh =>
          cases hclosest : closestSizeBucket ((wh.1 : ℚ) / (wh.2 : ℚ)) size_buckets with
          | none =>
            rw [scanStep_nobucket entries size_buckets acc f h1 h2 hany wh himg hclosest]
            exact hacc
          | some sb' =>
            rw [scanStep_add entries size_buckets acc f h1 h2 hany wh himg sb' hclosest]
            intro sb pairs hmem p hp
            rcases addToBucket_mem acc.1 sb' (FileRec.name f, f.stem ++ ".txt".toList)
                sb pairs hmem p hp with ⟨pairs0, hp0, hpp⟩ | hv
            · exact hacc sb pairs0 hp0 p hpp
            · subst hv
              refine ⟨f, hsub f (List.mem_cons_self f t), h1, h2, ?_, ?_, rfl⟩
              · obtain ⟨g', hg', hgname⟩ := List.any_eq_true.mp hany
                exact ⟨g', hg', by simpa using hgname⟩
              · rw [himg]; rfl
      · rw [scanStep_missing entries size_buckets acc f h1 h2 (by
          cases hval : entries.any fun g => g.name == f.stem ++ ".txt".toList
          · rfl
          · exact absurd hval hany)]
        exact hacc


/-- C9: an invalid/missing directory raises a fatal error; any valid listing
scans to completion (sample-level failures never escalate); a regular
non-caption file without a same-stem `.txt` caption is skipped with a warning
and excluded from every bucket; a file whose image cannot be opened is
skipped with a warning and excluded from every bucket. -/
theorem C9_scan_error_handling (size_buckets : List (Nat × Nat))
    (entries : List FileRec) (f : FileRec)
    (hnodup : (entries.map FileRec.name).Nodup) (hf : f ∈ entries)
    (hfile : f.is_file = true) (hsuffix : f.suffix ≠ ".txt".toList) :
    (split_into_size_buckets none size_buckets
        = Except.error ("Invalid path".toList)) ∧
    (∃ out, split_into_size_buckets (some entries) size_buckets = Except.ok out) ∧
    ((¬ ∃ g ∈ entries, FileRec.name g = f.stem ++ ".txt".toList) →
      ∀ out, split_into_size_buckets (some entries) size_buckets = Except.ok out →
        ScanWarning.missing_caption (FileRec.name f) ∈ out.2 ∧
        ∀ sb pairs, (sb, pairs) ∈ out.1 → ∀ p ∈ pairs, p.1 ≠ FileRec.name f) ∧
    ((∃ g ∈ entries, FileRec.name g = f.stem ++ ".txt".toList) → f.image = none →
      ∀ out, split_into_size_buckets (some entries) size_buckets = Except.ok out →
        ScanWarning.unreadable_image (FileRec.name f) ∈ out.2 ∧
        ∀ sb pairs, (sb, pairs) ∈ out.1 → ∀ p ∈ pairs, p.1 ≠ FileRec.name f) := by
  have hsub : ∀ x ∈ sortFiles entries, x ∈ entries :=
    fun x hx => (mem_sortFiles x entries).mp hx
  have hfs : f ∈ sortFiles entries := (mem_sortFiles f entries).mpr hf
  have hexclude : ∀ out, split_into_size_buckets (some entries) size_buckets
        = Except.ok out →
      (¬ (f.suffix ≠ ".txt".toList ∧
          (∃ g' ∈ entries, FileRec.name g' = f.stem ++ ".txt".toList) ∧
          f.image.isSome = true)) →
      ∀ sb pairs, (sb, pairs) ∈ out.1 → ∀ p ∈ pairs, p.1 ≠ FileRec.name f := by
    intro out hout hbad sb pairs hmem p hp hpeq
    injection hout with hout'
    rw [← hout'] at hmem
    have hgood := scan_pairs_good entries size_buckets (sortFiles entries) hsub
      ([], []) (by intro sb' pairs' h; cases h) sb pairs hmem p hp
    obtain ⟨g, hg, hgfile, hgsuf, hgcap, hgimg, hpname⟩ := hgood
    have hname : FileRec.name g = FileRec.name f := by rw [← hpname, hpeq]
    have hgf : g = f := List.inj_on_of_nodup_map hnodup hg hf hname
    subst hgf
    exact hbad ⟨hgsuf, hgcap, hgimg⟩
  refine ⟨rfl, ⟨_, rfl⟩, ?_, ?_⟩
  · intro hmiss out hout
    have hany : (entries.any fun g => g.name == f.stem ++ ".txt".toList) = false := by
      rw [List.any_eq_false]
      intro g hg hbeq
      exact hmiss ⟨g, hg, by simpa using hbeq⟩
    constructor
    · injection hout with hout'
      rw [← hout']
      exact foldl_warning_of_mem entries size_buckets
        (ScanWarning.missing_caption (FileRec.name f)) f
        (fun acc => by rw [scanStep_missing entries size_buckets acc f hfile hsuffix hany])
        (sortFiles entries) hfs ([], [])
    · exact hexclude out hout (fun ⟨_, hcap, _⟩ => hmiss hcap)
  · intro hcap himg out hout
    have hany : (entries.any fun g => g.name == f.stem ++ ".txt".toList) = true := by
      rw [List.any_eq_true]
      obtain ⟨g, hg, hgname⟩ := hcap
      exact ⟨g, hg, by simpa using hgname⟩
    constructor
    · injection hout with hout'
      rw [← hout']
      exact foldl_warning_of_mem entries size_buckets
        (ScanWarning.unreadable_image (FileRec.name f)) f
        (fun acc => by
          rw [scanStep_unreadable entries size_buckets acc f hfile hsuffix hany himg])
        (sortFiles entries) hfs ([], [])
    · refine hexclude out hout (fun ⟨_, _, hsome⟩ => ?_)
      rw [himg] at hsome
      cases hsome

def exampleScanFile : FileRec :=
  ⟨"a".toList, ".png".toList, true, some (1, 1)⟩

def exampleScanEntries : List FileRec := [exampleScanFile]

/-- C9 witness: a single image file with no caption file is skipped with a
missing-caption warning, and the scan still returns successfully. -/
theorem C9_scan_error_handling_witness :
    (exampleScanEntries.map FileRec.name).Nodup ∧
    exampleScanFile ∈ exampleScanEntries ∧
    exampleScanFile.is_file = true ∧
    exampleScanFile.suffix ≠ ".txt".toList ∧
    ScanWarning.missing_caption (FileRec.name exampleScanFile) ∈
      ((sortFiles exampleScanEntries).foldl
        (scanStep exampleScanEntries [(512, 512)]) ([], [])).2 :=
  ⟨by decide, by decide, by decide, by decide,
   (((C9_scan_error_handling [(512, 512)] exampleScanEntries exampleScanFile
        (by decide) (by decide) (by decide) (by decide)).2.2.1 (by decide))
      _ rfl).1⟩
